import Mathlib

/-!
# Digital Allies: the `App` component and its build configuration

A shallow embedding of `src/App.jsx` (one React function component holding a click
counter in `useState`) and of `vite.config.js`, with the properties of the
specification stated over it.

Layout of the development:

* JavaScript numbers, as far as the counter needs them: `count + 1` is IEEE-754
  binary64 addition, which is exact below `2 ^ 53` and rounds (ties to even) above, and
  `Number::toString` prints the shortest decimal that rounds to the number;
* the `useState` hook: a memoized state and a queue of pending updates that the next
  render folds over the state;
* React elements (`VNode`) and the element tree returned by `App`;
* a mounted root with its three steps: `fire` (the click handler runs), `rerender`
  (the component function runs again) and `activate` (a click followed by the
  re-render it schedules);
* the Vite configuration object.
-/

namespace DigitalAllies

/-! ## JavaScript numbers -/

/-- Width of a binary64 significand: 52 stored bits and the implicit leading one. -/
def significandBits : Nat := 53

/-- Number of low-order bits of `n` that do not fit into a 53-bit significand: `0` for
`n < 2 ^ 53`, otherwise the bit length of `n` minus 53. The first argument bounds the
recursion; `excessBits n n` always reaches the answer, since halving `n` that many times
gives `0`. -/
def excessBits : Nat → Nat → Nat
  | 0, _ => 0
  | fuel + 1, n => if n < 2 ^ significandBits then 0 else excessBits fuel (n / 2) + 1

/-- Round a natural number to the nearest binary64 value, ties to the even significand
(the IEEE-754 default, used by every JavaScript arithmetic operator). The result is
`q * 2 ^ e` or `(q + 1) * 2 ^ e`, `q` being the 53 leading bits of `n`. Values so large
that binary64 overflows to `Infinity` (from `2 ^ 1024 - 2 ^ 970` on) are outside this model. -/
def roundNat (n : Nat) : Nat :=
  let e := excessBits n n
  let q := n / 2 ^ e
  let r := n % 2 ^ e
  if 2 * r < 2 ^ e then q * 2 ^ e
  else if 2 ^ e < 2 * r then (q + 1) * 2 ^ e
  else if q % 2 = 0 then q * 2 ^ e
  else (q + 1) * 2 ^ e

/-- Round an integer to the nearest binary64 value; rounding is symmetric in the sign. -/
def roundToDouble (z : Int) : Int :=
  if z < 0 then -(roundNat z.natAbs : Int) else (roundNat z.natAbs : Int)

/-- The JavaScript `+` on two integer-valued numbers: the exact sum, rounded to binary64. -/
def jsAdd (a b : Int) : Int := roundToDouble (a + b)

/-- Number of decimal digits of a natural number (`1` for `0`). -/
def decimalLength (n : Nat) : Nat := (Nat.toDigits 10 n).length

/-- The decimal that `Number::toString` prints for the binary64 value `x`: among the
decimals that round to `x`, the one with the fewest significant digits and, among those,
the nearest to `x` (the even last digit on a tie). The search goes down the powers of ten
`10 ^ j`, the position of the last significant digit: `lo` and `hi` are the multiples of
`10 ^ j` on either side of `x`, and the first position where one of them rounds to `x`
decides. At `j = 0` the digits of `x` itself remain. -/
def shortestDecimal (x : Nat) : Nat → Nat
  | 0 => x
  | j + 1 =>
    let p := 10 ^ (j + 1)
    let lo := x / p * p
    let hi := lo + p
    if roundNat lo = x then
      if roundNat hi = x then
        if x - lo < hi - x then lo
        else if hi - x < x - lo then hi
        else if (lo / p) % 2 = 0 then lo
        else hi
      else lo
    else if roundNat hi = x then hi
    else shortestDecimal x j

/-- The exponent form of `Number::toString`, used from `1e21` on: the first significant
digit, a point and the other significant digits if there are any, then `e+` and the
decimal exponent (`1e+21`, `1.1805916207174113e+21`). -/
def exponentForm (v : Nat) : String :=
  let digits := Nat.toDigits 10 v
  let significant := (digits.reverse.dropWhile (fun d => d == '0')).reverse
  match significant with
  | [] => "0"
  | d :: rest =>
    String.mk (d :: (if rest.isEmpty then [] else '.' :: rest))
      ++ "e+" ++ Nat.repr (digits.length - 1)

/-- JavaScript `Number::toString` (radix 10) on a non-negative integer-valued binary64
number: the shortest decimal that rounds to it, written out in full below `1e21` and in
exponent form from there on (`2 ^ 64` prints as `18446744073709552000`). The argument is
meant to be a binary64 value, that is, `roundNat x = x`. -/
def numberToStringNat (x : Nat) : String :=
  let v := shortestDecimal x (decimalLength x - 1)
  if v < 10 ^ 21 then Nat.repr v else exponentForm v

/-- JavaScript `Number::toString` (radix 10) on an integer-valued binary64 number: a minus
sign for a negative number, then the digits of its magnitude. Up to `2 ^ 53` these are the
plain decimal digits of the integer (`numberToString_of_nonneg_le`). -/
def numberToString (n : Int) : String :=
  if n < 0 then "-" ++ numberToStringNat n.natAbs else numberToStringNat n.natAbs

/-- The number a string of decimal digits denotes, read from the left; used to recover a
counter value from its printed form. -/
def decimalValue (digits : List Char) : Nat :=
  digits.foldl (fun value digit => 10 * value + (digit.toNat - 48)) 0

/-! ## The `useState` hook -/

/-- The argument of a state setter: a plain next value, or an updater function that
receives the pending state. -/
inductive SetStateAction where
  | value (next : Int)
  | updater (f : Int → Int)

/-- What an action makes of the pending state. -/
def SetStateAction.apply : SetStateAction → Int → Int
  | .value next, _ => next
  | .updater f, pending => f pending

/-- The hook cell behind one `useState` call: the state as of the last render (`none`
before the component has mounted) and the updates enqueued since. -/
structure Hook where
  memoizedState : Option Int
  queue : List SetStateAction

/-- The hook cell of a component that has not rendered yet. -/
def Hook.unmounted : Hook := ⟨none, []⟩

/-- The state setter returned by `useState`: it enqueues the action; nothing is computed
until the next render. -/
def dispatchSetState (action : SetStateAction) (hook : Hook) : Hook :=
  { hook with queue := hook.queue ++ [action] }

/-- Result of a `useState` call: the current state, the setter, and the hook cell after
the call. -/
structure UseState where
  state : Int
  setState : SetStateAction → Hook → Hook
  hook : Hook

/-- The call `useState(initialState)` during a render. On mount the state is the initial
state; on a later render the queued actions are applied in order, oldest first, each to
the result of the one before, and the queue is emptied. -/
def useState (initialState : Int) (hook : Hook) : UseState :=
  match hook.memoizedState with
  | none =>
    { state := initialState
      setState := dispatchSetState
      hook := { memoizedState := some initialState, queue := [] } }
  | some current =>
    let next := hook.queue.foldl (fun pending action => action.apply pending) current
    { state := next
      setState := dispatchSetState
      hook := { memoizedState := some next, queue := [] } }

/-! ## React elements -/

/-- A numeric literal of the source, kept as written: `digits / 10 ^ scale`
(`1.05` is `⟨105, 2⟩`, `20` is `⟨20, 0⟩`). -/
structure Decimal where
  digits : Nat
  scale : Nat

/-- The value of a JSX attribute. -/
inductive PropValue where
  | str (s : String)
  | obj (fields : List (String × Decimal))
  | handler (run : Hook → Hook)

/-- A React node: a text child, a number child (as in `{count}`), or an element with its
type, its props in source order and its children. -/
inductive VNode where
  | text (s : String)
  | number (n : Int)
  | element (type : String) (props : List (String × PropValue)) (children : List VNode)

namespace VNode

/-- The children of a node (none for text and numbers). -/
def children : VNode → List VNode
  | element _ _ cs => cs
  | _ => []

/-- The props of a node (none for text and numbers). -/
def props : VNode → List (String × PropValue)
  | element _ ps _ => ps
  | _ => []

/-- Whether the node is an element of the given type. -/
def isElement (type : String) : VNode → Bool
  | element t _ _ => t == type
  | _ => false

mutual
/-- The text of a node as the DOM reports it (`textContent`): the texts of all
descendants in document order, numbers printed by `Number::toString`. -/
def textContent : VNode → String
  | text s => s
  | number n => numberToString n
  | element _ _ cs => textContentList cs
/-- The concatenated text of a list of siblings. -/
def textContentList : List VNode → String
  | [] => ""
  | c :: cs => textContent c ++ textContentList cs
end

mutual
/-- The node and all its descendants, in document order. -/
def descendants : VNode → List VNode
  | text s => [text s]
  | number n => [number n]
  | element t ps cs => element t ps cs :: descendantsList cs
/-- The descendants of a list of siblings, in document order. -/
def descendantsList : List VNode → List VNode
  | [] => []
  | c :: cs => descendants c ++ descendantsList cs
end

/-- All elements of a given type below (and including) a node, in document order. -/
def elementsByType (type : String) (root : VNode) : List VNode :=
  (descendants root).filter (isElement type)

/-- The first child that is an element of the given type. -/
def childByType (type : String) (node : VNode) : Option VNode :=
  node.children.find? (isElement type)

/-- Whether the node is a number child. -/
def isNumber : VNode → Bool
  | number _ => true
  | _ => false

mutual
/-- The same tree with every number child replaced through `f`; texts, element types,
props and the shape of the tree are kept. -/
def mapNumbers (f : Int → Int) : VNode → VNode
  | text s => text s
  | number n => number (f n)
  | element t ps cs => element t ps (mapNumbersList f cs)
/-- The number children of a list of siblings replaced through `f`. -/
def mapNumbersList (f : Int → Int) : List VNode → List VNode
  | [] => []
  | c :: cs => mapNumbers f c :: mapNumbersList f cs
end

/-- The event handler stored under a prop name, if there is one. -/
def handlerProp (name : String) (node : VNode) : Option (Hook → Hook) :=
  match node.props.lookup name with
  | some (PropValue.handler run) => some run
  | _ => none

end VNode

/-! ## The component `App` (`src/App.jsx`) -/

/-- The updater passed to `setCount` by the click handler: `(count) => count + 1`. -/
def increment (count : Int) : Int := jsAdd count 1

/-- The click handler of the button: `() => setCount((count) => count + 1)`. -/
def onClick (setCount : SetStateAction → Hook → Hook) : Hook → Hook :=
  setCount (SetStateAction.updater increment)

/-- The element tree of the `return (...)` statement of `App`, for the values of `count`
and `setCount` in scope. -/
def view (count : Int) (setCount : SetStateAction → Hook → Hook) : VNode :=
  .element "div"
    [("className", .str "min-h-screen bg-gradient-to-br from-blue-50 to-indigo-100 flex items-center justify-center p-4")]
    [.element "motion.div"
      [("initial", .obj [("opacity", ⟨0, 0⟩), ("y", ⟨20, 0⟩)]),
       ("animate", .obj [("opacity", ⟨1, 0⟩), ("y", ⟨0, 0⟩)]),
       ("transition", .obj [("duration", ⟨5, 1⟩)]),
       ("className", .str "max-w-2xl w-full bg-white rounded-2xl shadow-xl p-8")]
      [.element "div" [("className", .str "text-center")]
        [.element "motion.h1"
          [("initial", .obj [("scale", ⟨9, 1⟩)]),
           ("animate", .obj [("scale", ⟨1, 0⟩)]),
           ("transition", .obj [("duration", ⟨3, 1⟩)]),
           ("className", .str "text-4xl font-bold text-indigo-600 mb-4")]
          [.text "Digital Allies V2"],
         .element "p" [("className", .str "text-gray-600 mb-8")]
          [.text "React + Vite + Tailwind CSS + Framer Motion + Lucide React"],
         .element "div" [("className", .str "grid grid-cols-1 md:grid-cols-3 gap-4 mb-8")]
          [.element "motion.div"
            [("whileHover", .obj [("scale", ⟨105, 2⟩)]),
             ("className", .str "p-6 bg-indigo-50 rounded-lg")]
            [.element "Heart" [("className", .str "w-12 h-12 mx-auto text-indigo-600 mb-2")] [],
             .element "h3" [("className", .str "font-semibold text-gray-800")] [.text "Care"]],
           .element "motion.div"
            [("whileHover", .obj [("scale", ⟨105, 2⟩)]),
             ("className", .str "p-6 bg-indigo-50 rounded-lg")]
            [.element "Users" [("className", .str "w-12 h-12 mx-auto text-indigo-600 mb-2")] [],
             .element "h3" [("className", .str "font-semibold text-gray-800")] [.text "Community"]],
           .element "motion.div"
            [("whileHover", .obj [("scale", ⟨105, 2⟩)]),
             ("className", .str "p-6 bg-indigo-50 rounded-lg")]
            [.element "Shield" [("className", .str "w-12 h-12 mx-auto text-indigo-600 mb-2")] [],
             .element "h3" [("className", .str "font-semibold text-gray-800")] [.text "Security"]]],
         .element "motion.button"
          [("whileHover", .obj [("scale", ⟨105, 2⟩)]),
           ("whileTap", .obj [("scale", ⟨95, 2⟩)]),
           ("onClick", .handler (onClick setCount)),
           ("className", .str "px-6 py-3 bg-indigo-600 text-white rounded-lg font-semibold shadow-md hover:bg-indigo-700 transition-colors")]
          [.text "Count is ", .number count]]]]

/-- The function component `App`: one `useState(0)` call, then the element tree. It
returns the tree together with the hook cell the call leaves behind. -/
def App (hook : Hook) : VNode × Hook :=
  let u := useState 0 hook
  (view u.state u.setState, u.hook)

/-! ## A mounted root -/

/-- A mounted `App`: its hook cell and the element tree of the last render. -/
structure Root where
  hook : Hook
  output : VNode

/-- Run the component function once and keep what it returns. -/
def render (hook : Hook) : Root :=
  let r := App hook
  { hook := r.2, output := r.1 }

/-- The first render (the `initialize()` of the specification): the component mounts with
a fresh hook cell. -/
def mount : Root := render Hook.unmounted

/-- The Counter: the state held by the hook as of the last render. -/
def Root.counter (r : Root) : Option Int := r.hook.memoizedState

/-- The button of the rendered output: its first `motion.button` element. -/
def Root.button (r : Root) : Option VNode := (r.output.elementsByType "motion.button").head?

/-- The text shown on the button. -/
def Root.buttonText (r : Root) : Option String := r.button.map VNode.textContent

/-- The feature tiles of the rendered output: the elements with an `h3` child, in document
order. -/
def Root.tiles (r : Root) : List VNode :=
  r.output.descendants.filter (fun node => (node.childByType "h3").isSome)

/-- The labels of the feature tiles: the text of the `h3` of each tile, in document order. -/
def Root.tileLabels (r : Root) : List String :=
  r.tiles.filterMap (fun tile => (tile.childByType "h3").map VNode.textContent)

/-- A click on the button: the `onClick` handler of the rendered button runs on the hook
cell. The handler only enqueues an update; the output on screen stays as it is until the
next render. `none` if the output has no button with a click handler. -/
def fire (r : Root) : Option Root :=
  match r.button with
  | none => none
  | some b =>
    match b.handlerProp "onClick" with
    | none => none
    | some run => some { r with hook := run r.hook }

/-- A render of the mounted component, with whatever updates are pending. -/
def rerender (r : Root) : Root := render r.hook

/-- One activation of the button: the click, then the re-render that the state update
schedules. -/
def activate (r : Root) : Option Root := (fire r).map rerender

/-- The root after a sequence of `n` activations. -/
def activations : Nat → Root → Option Root
  | 0, r => some r
  | n + 1, r => (activate r).bind (activations n)

/-- The root after `k` clicks handled in one batch: all handlers run before the component
renders again, once. -/
def fireMany : Nat → Root → Option Root
  | 0, r => some r
  | k + 1, r => (fire r).bind (fireMany k)

/-- The root after `k` clicks in one batch and the render that follows them. -/
def batch (k : Nat) (r : Root) : Option Root := (fireMany k r).map rerender

/-- The root that shows counter value `c` with no update pending. -/
def atCount (c : Int) : Root := render ⟨some c, []⟩

/-- The roots a user can bring about: the mounted component, and whatever clicks and
renders make of it, in any order. -/
inductive Reachable : Root → Prop where
  | mount : Reachable mount
  | fire {r r' : Root} : Reachable r → fire r = some r' → Reachable r'
  | rerender {r : Root} : Reachable r → Reachable (rerender r)

/-- A handler that is not the one of `App`, for comparison: `() => setCount(count + 1)`,
which enqueues the value computed from the `count` that the render captured. -/
def onClickCapturing (count : Int) (setCount : SetStateAction → Hook → Hook) : Hook → Hook :=
  setCount (SetStateAction.value (jsAdd count 1))

/-- The state computed by the render after `k` clicks in one batch, had the button
rendered at state `c` carried the capturing handler. -/
def batchCapturing (k : Nat) (c : Int) : Int :=
  (useState 0 ((onClickCapturing c dispatchSetState)^[k] ⟨some c, []⟩)).state

/-! ## The build configuration (`vite.config.js`) -/

/-- A Vite plugin; the configuration uses one, `@vitejs/plugin-react`. -/
inductive Plugin where
  | react
  deriving DecidableEq

/-- The fields of the Vite configuration object that the file sets. -/
structure UserConfig where
  plugins : List Plugin
  base : String

/-- Vite's `defineConfig` helper: it returns the object it is given. -/
def defineConfig (config : UserConfig) : UserConfig := config

/-- The default export of `vite.config.js`. -/
def viteConfig : UserConfig :=
  defineConfig { plugins := [Plugin.react], base := "./" }

/-! ## Numbers: where `count + 1` is exact -/

theorem excessBits_eq_zero (fuel n : Nat) (h : n < 2 ^ 53) : excessBits fuel n = 0 := by
  cases fuel with
  | zero => rfl
  | succ f => rw [excessBits, if_pos (by simpa [significandBits] using h)]

/-- The fuel of `excessBits` is enough: the bits that remain fit into the significand. -/
theorem excessBits_fits (fuel n : Nat) (h : n < 2 ^ (53 + fuel)) :
    n / 2 ^ excessBits fuel n < 2 ^ 53 := by
  induction fuel generalizing n with
  | zero => simpa [excessBits] using h
  | succ f ih =>
    unfold excessBits
    by_cases hn : n < 2 ^ significandBits
    · rw [if_pos hn, pow_zero, Nat.div_one]; simpa [significandBits] using hn
    · rw [if_neg hn, pow_succ, mul_comm, ← Nat.div_div_eq_div_mul]
      apply ih
      rw [Nat.div_lt_iff_lt_mul (by norm_num)]
      calc n < 2 ^ (53 + (f + 1)) := h
        _ = 2 ^ (53 + f) * 2 := by rw [← Nat.add_assoc, pow_succ]

/-- The significand kept by `roundNat` has at most 53 bits, whatever the argument. -/
theorem roundNat_significand_lt (n : Nat) : n / 2 ^ excessBits n n < 2 ^ 53 := by
  apply excessBits_fits
  calc n < 2 ^ n := Nat.lt_two_pow n
    _ ≤ 2 ^ (53 + n) := Nat.pow_le_pow_right (by norm_num) (by omega)

/-- The exponent chosen by `excessBits` is not too large either: a number that needs
rounding keeps a full 53-bit significand. -/
theorem excessBits_tight (fuel n : Nat) (h : n < 2 ^ (53 + fuel)) (hn : 2 ^ 53 ≤ n) :
    2 ^ 52 ≤ n / 2 ^ excessBits fuel n := by
  induction fuel generalizing n with
  | zero => rw [Nat.add_zero] at h; omega
  | succ f ih =>
    have hlt : ¬ n < 2 ^ significandBits := by
      rw [significandBits]; omega
    have e : 2 ^ (excessBits f (n / 2) + 1) = 2 * 2 ^ excessBits f (n / 2) := by
      rw [pow_succ, mul_comm]
    rw [excessBits, if_neg hlt, e, ← Nat.div_div_eq_div_mul]
    by_cases h2 : n / 2 < 2 ^ 53
    · rw [excessBits_eq_zero f (n / 2) h2, pow_zero, Nat.div_one]
      omega
    · apply ih
      · rw [Nat.div_lt_iff_lt_mul (by norm_num)]
        calc n < 2 ^ (53 + (f + 1)) := h
          _ = 2 ^ (53 + f) * 2 := by rw [← Nat.add_assoc, pow_succ]
      · omega

/-- The significand kept by `roundNat` is normalised: from `2 ^ 53` on it has exactly 53
bits. -/
theorem roundNat_significand_ge (n : Nat) (hn : 2 ^ 53 ≤ n) :
    2 ^ 52 ≤ n / 2 ^ excessBits n n := by
  apply excessBits_tight _ _ _ hn
  calc n < 2 ^ n := Nat.lt_two_pow n
    _ ≤ 2 ^ (53 + n) := Nat.pow_le_pow_right (by norm_num) (by omega)

/-- The result of `roundNat` is a binary64 value: a significand of at most 53 bits (or the
power `2 ^ 53` after a carry) times a power of two. -/
theorem roundNat_representable (n : Nat) :
    ∃ m, m ≤ 2 ^ 53 ∧ roundNat n = m * 2 ^ excessBits n n := by
  have hq := roundNat_significand_lt n
  unfold roundNat
  simp only []
  split_ifs
  · exact ⟨_, le_of_lt hq, rfl⟩
  · exact ⟨_, hq, rfl⟩
  · exact ⟨_, le_of_lt hq, rfl⟩
  · exact ⟨_, hq, rfl⟩

/-- The result of `roundNat` is a nearest one: it is at most half a unit in the last place
away from the argument, on either side. -/
theorem roundNat_near (n : Nat) :
    2 * (roundNat n - n) ≤ 2 ^ excessBits n n ∧ 2 * (n - roundNat n) ≤ 2 ^ excessBits n n := by
  have hdm : 2 ^ excessBits n n * (n / 2 ^ excessBits n n) + n % 2 ^ excessBits n n = n :=
    Nat.div_add_mod n _
  have hr : n % 2 ^ excessBits n n < 2 ^ excessBits n n := Nat.mod_lt _ (by positivity)
  unfold roundNat
  simp only []
  generalize 2 ^ excessBits n n = p at hdm hr ⊢
  generalize n % p = r at hdm hr ⊢
  generalize hq : n / p = q at hdm ⊢
  rw [Nat.add_mul, Nat.one_mul, Nat.mul_comm q p]
  generalize p * q = t at hdm ⊢
  split_ifs <;> omega

theorem roundNat_of_lt (n : Nat) (h : n < 2 ^ 53) : roundNat n = n := by
  simp [roundNat, excessBits_eq_zero n n h, Nat.mod_one]

theorem roundNat_of_le (n : Nat) (h : n ≤ 2 ^ 53) : roundNat n = n := by
  rcases Nat.lt_or_eq_of_le h with h | h
  · exact roundNat_of_lt n h
  · subst h; decide

theorem roundToDouble_of_nonneg_le (z : Int) (h0 : 0 ≤ z) (h : z ≤ 2 ^ 53) :
    roundToDouble z = z := by
  have hz : ¬ z < 0 := by omega
  have hn : z.natAbs ≤ 2 ^ 53 := by omega
  rw [roundToDouble, if_neg hz, roundNat_of_le _ hn]
  omega

/-- Below `2 ^ 53` the updater adds exactly one. -/
theorem increment_of_lt (c : Int) (h0 : 0 ≤ c) (h : c < 2 ^ 53) : increment c = c + 1 := by
  unfold increment jsAdd
  exact roundToDouble_of_nonneg_le (c + 1) (by omega) (by omega)

/-- At `2 ^ 53` the sum `2 ^ 53 + 1` is a tie between `2 ^ 53` and `2 ^ 53 + 2` and rounds
to the even significand: the updater returns its argument. -/
theorem increment_maxExact : increment (2 ^ 53) = 2 ^ 53 := by decide

theorem increment_range (c : Int) (h0 : 0 ≤ c) (h : c ≤ 2 ^ 53) :
    0 ≤ increment c ∧ increment c ≤ 2 ^ 53 := by
  rcases lt_or_eq_of_le h with h | h
  · rw [increment_of_lt c h0 h]; omega
  · subst h; rw [increment_maxExact]; omega

theorem iterate_increment_of_le (k : Nat) (c : Int) (h0 : 0 ≤ c) (h : c + k ≤ 2 ^ 53) :
    increment^[k] c = c + k := by
  induction k generalizing c with
  | zero => simp
  | succ k ih =>
    rw [Function.iterate_succ_apply, increment_of_lt c h0 (by omega), ih (c + 1) (by omega) (by push_cast at h ⊢; omega)]
    push_cast; ring

theorem iterate_increment_maxExact (k : Nat) : increment^[k] (2 ^ 53) = 2 ^ 53 := by
  induction k with
  | zero => rfl
  | succ k ih => rw [Function.iterate_succ_apply, increment_maxExact, ih]

/-- Repeated increments count up to `2 ^ 53` and stay there. -/
theorem iterate_increment_eq_min (k : Nat) (c : Int) (h0 : 0 ≤ c) (h : c ≤ 2 ^ 53) :
    increment^[k] c = min (c + k) (2 ^ 53) := by
  by_cases hk : c + k ≤ 2 ^ 53
  · rw [iterate_increment_of_le k c h0 hk, min_eq_left hk]
  · obtain ⟨d, hd⟩ : ∃ d : Nat, c + d = 2 ^ 53 := ⟨(2 ^ 53 - c).toNat, by omega⟩
    obtain ⟨e, rfl⟩ : ∃ e : Nat, k = d + e := ⟨k - d, by omega⟩
    rw [Nat.add_comm d e, Function.iterate_add_apply,
      iterate_increment_of_le d c h0 (le_of_eq hd), hd, iterate_increment_maxExact,
      min_eq_right (by omega)]

/-! ## Rendering, clicking, and the states that can be reached -/

theorem foldl_replicate_increment (j : Nat) (c : Int) :
    (List.replicate j (SetStateAction.updater increment)).foldl
      (fun pending action => action.apply pending) c = increment^[j] c := by
  induction j generalizing c with
  | zero => rfl
  | succ j ih => rw [List.replicate_succ, List.foldl_cons, Function.iterate_succ_apply, ← ih]; rfl

theorem render_pending (c : Int) (j : Nat) :
    render ⟨some c, List.replicate j (SetStateAction.updater increment)⟩
      = atCount (increment^[j] c) := by
  simp only [render, App, useState, atCount, foldl_replicate_increment, List.foldl_nil]

theorem mount_eq_atCount : mount = atCount 0 := rfl

theorem atCount_hook (c : Int) : (atCount c).hook = ⟨some c, []⟩ := rfl

theorem atCount_counter (c : Int) : (atCount c).counter = some c := rfl

theorem atCount_buttonText (c : Int) :
    (atCount c).buttonText = some ("Count is " ++ numberToString c) := by
  show some ("Count is " ++ (numberToString c ++ "")) = _
  rw [String.append_empty]

theorem rerender_atCount (c : Int) : rerender (atCount c) = atCount c := rfl

/-- A click on a rendered `App` runs the handler of the source on the hook cell. -/
theorem fire_view (hook : Hook) (c : Int) :
    fire ⟨hook, view c dispatchSetState⟩
      = some ⟨dispatchSetState (SetStateAction.updater increment) hook, view c dispatchSetState⟩ :=
  rfl

theorem fireMany_atCount (k : Nat) (c : Int) (j : Nat) :
    fireMany k ⟨⟨some c, List.replicate j (SetStateAction.updater increment)⟩, view c dispatchSetState⟩
      = some ⟨⟨some c, List.replicate (j + k) (SetStateAction.updater increment)⟩,
          view c dispatchSetState⟩ := by
  induction k generalizing j with
  | zero => rfl
  | succ k ih =>
    rw [fireMany, fire_view, Option.some_bind, dispatchSetState]
    have h := ih (j + 1)
    rw [List.replicate_succ'] at h
    rw [h, Nat.add_assoc, Nat.add_comm 1 k]

theorem activate_atCount (c : Int) : activate (atCount c) = some (atCount (increment c)) := rfl

theorem activations_atCount (n : Nat) (c : Int) :
    activations n (atCount c) = some (atCount (increment^[n] c)) := by
  induction n generalizing c with
  | zero => rfl
  | succ n ih => rw [activations, activate_atCount, Option.some_bind, ih, Function.iterate_succ_apply]

theorem batch_atCount (k : Nat) (c : Int) :
    batch k (atCount c) = some (atCount (increment^[k] c)) := by
  have h := fireMany_atCount k c 0
  rw [Nat.zero_add] at h
  show (fireMany k ⟨⟨some c, List.replicate 0 (SetStateAction.updater increment)⟩,
    view c dispatchSetState⟩).map rerender = _
  rw [h, Option.map_some', rerender]
  exact congrArg some (render_pending c k)

/-- Every reachable root carries a counter between `0` and `2 ^ 53`, shows the tree of
that counter, and has only increments pending. -/
theorem reachable_shape (r : Root) (h : Reachable r) :
    ∃ (c : Int) (j : Nat), 0 ≤ c ∧ c ≤ 2 ^ 53 ∧
      r = ⟨⟨some c, List.replicate j (SetStateAction.updater increment)⟩,
            view c dispatchSetState⟩ := by
  induction h with
  | mount => exact ⟨0, 0, le_refl _, by norm_num, rfl⟩
  | @fire r r' _ hf ih =>
    obtain ⟨c, j, h0, h1, rfl⟩ := ih
    refine ⟨c, j + 1, h0, h1, ?_⟩
    rw [fire_view, dispatchSetState] at hf
    rw [List.replicate_succ']
    exact (Option.some.inj hf).symm
  | @rerender r _ ih =>
    obtain ⟨c, j, h0, h1, rfl⟩ := ih
    have hr : ∀ (k : Nat), 0 ≤ increment^[k] c ∧ increment^[k] c ≤ 2 ^ 53 := by
      intro k
      induction k with
      | zero => exact ⟨h0, h1⟩
      | succ k ihk =>
        rw [Function.iterate_succ_apply']
        exact increment_range _ ihk.1 ihk.2
    refine ⟨increment^[j] c, 0, (hr j).1, (hr j).2, ?_⟩
    rw [rerender]
    exact render_pending c j

theorem reachable_activations (n : Nat) (r r' : Root) (h : Reachable r)
    (hn : activations n r = some r') : Reachable r' := by
  induction n generalizing r with
  | zero => rw [activations] at hn; exact (Option.some.inj hn) ▸ h
  | succ n ih =>
    rw [activations] at hn
    cases hf : fire r with
    | none => simp [activate, hf] at hn
    | some r₁ =>
      rw [activate, hf, Option.map_some', Option.some_bind] at hn
      exact ih (rerender r₁) (Reachable.rerender (Reachable.fire h hf)) hn

theorem reachable_atCount (n : Nat) : Reachable (atCount (increment^[n] 0)) :=
  reachable_activations n mount _ Reachable.mount (activations_atCount n 0)

/-! ## Printing a counter value -/

theorem digitChar_value (k : Nat) (h : k < 10) : (Nat.digitChar k).toNat - 48 = k := by
  interval_cases k <;> rfl

theorem foldl_decimal (digits : List Char) (start : Nat) :
    digits.foldl (fun value digit => 10 * value + (digit.toNat - 48)) start
      = start * 10 ^ digits.length + decimalValue digits := by
  induction digits generalizing start with
  | nil => simp [decimalValue]
  | cons d ds ih =>
    rw [decimalValue, List.foldl_cons, List.foldl_cons, ih, ih (10 * 0 + (d.toNat - 48)),
      List.length_cons, pow_succ]
    ring

theorem decimalValue_cons (d : Char) (ds : List Char) :
    decimalValue (d :: ds) = (d.toNat - 48) * 10 ^ ds.length + decimalValue ds := by
  rw [decimalValue, List.foldl_cons, foldl_decimal]
  ring

theorem decimalValue_toDigitsCore (fuel n : Nat) (ds : List Char) (h : n < fuel) :
    decimalValue (Nat.toDigitsCore 10 fuel n ds) = n * 10 ^ ds.length + decimalValue ds := by
  induction fuel generalizing n ds with
  | zero => omega
  | succ f ih =>
    rw [Nat.toDigitsCore]
    by_cases hq : n / 10 = 0
    · simp only [hq, if_true]
      rw [decimalValue_cons, digitChar_value _ (Nat.mod_lt _ (by norm_num))]
      have : n % 10 = n := by omega
      rw [this]
    · simp only [hq, if_false]
      rw [ih (n / 10) _ (by omega), decimalValue_cons,
        digitChar_value _ (Nat.mod_lt _ (by norm_num)), List.length_cons, pow_succ]
      have hn : n = 10 * (n / 10) + n % 10 := (Nat.div_add_mod n 10).symm
      generalize 10 ^ ds.length = p
      generalize n / 10 = q at hn ⊢
      generalize n % 10 = m at hn ⊢
      subst hn
      ring

/-- Reading back the decimal digits of a natural number gives the number. -/
theorem decimalValue_repr (n : Nat) : decimalValue (Nat.repr n).data = n := by
  rw [Nat.repr, List.asString, Nat.toDigits, decimalValue_toDigitsCore _ _ _ (Nat.lt_succ_self n)]
  simp [decimalValue]

/-- From `2 ^ 53` on at least one low-order bit is dropped. -/
theorem excessBits_pos (n : Nat) (hn : 2 ^ 53 ≤ n) : 1 ≤ excessBits n n := by
  obtain ⟨m, rfl⟩ : ∃ m, n = m + 1 := ⟨n - 1, by omega⟩
  have hlt : ¬ m + 1 < 2 ^ significandBits := by
    rw [significandBits]; omega
  rw [excessBits, if_neg hlt]
  omega

/-- Rounding never goes below the truncated significand. -/
theorem roundNat_ge_truncated (n : Nat) :
    n / 2 ^ excessBits n n * 2 ^ excessBits n n ≤ roundNat n := by
  unfold roundNat
  simp only []
  split_ifs
  · exact le_refl _
  · exact Nat.mul_le_mul_right _ (Nat.le_succ _)
  · exact le_refl _
  · exact Nat.mul_le_mul_right _ (Nat.le_succ _)

/-- A number from `2 ^ 53 + 2` on is not rounded below `2 ^ 53 + 2`. -/
theorem roundNat_ge_of_ge (n : Nat) (hn : 2 ^ 53 + 2 ≤ n) : 2 ^ 53 + 2 ≤ roundNat n := by
  have h53 : 2 ^ 53 ≤ n := by omega
  have he := excessBits_pos n h53
  have hq := roundNat_significand_ge n h53
  refine le_trans ?_ (roundNat_ge_truncated n)
  obtain ⟨e, hE⟩ : ∃ e, excessBits n n = e + 1 := ⟨excessBits n n - 1, by omega⟩
  rw [hE] at hq ⊢
  cases e with
  | zero =>
    rw [Nat.zero_add, pow_one] at hq ⊢
    omega
  | succ e =>
    have h4 : 4 ≤ 2 ^ (e + 1 + 1) := by
      rw [pow_succ, pow_succ]
      have : 1 ≤ 2 ^ e := Nat.one_le_two_pow
      omega
    calc 2 ^ 53 + 2 ≤ 2 ^ 52 * 4 := by norm_num
      _ ≤ n / 2 ^ (e + 1 + 1) * 2 ^ (e + 1 + 1) := Nat.mul_le_mul hq h4

/-- Up to `2 ^ 53` the shortest decimal that rounds to an integer is the integer itself,
at whatever digit position the search starts. -/
theorem shortestDecimal_of_le (x j : Nat) (h : x ≤ 2 ^ 53) : shortestDecimal x j = x := by
  induction j with
  | zero => rfl
  | succ j ih =>
    have hp : 10 ∣ 10 ^ (j + 1) := Dvd.intro_left _ (pow_succ 10 j).symm
    have hpos : 0 < 10 ^ (j + 1) := by positivity
    have hlo : x / 10 ^ (j + 1) * 10 ^ (j + 1) ≤ x := Nat.div_mul_le_self x _
    have hhi : x < x / 10 ^ (j + 1) * 10 ^ (j + 1) + 10 ^ (j + 1) := by
      have := Nat.lt_div_mul_add (a := x) hpos
      omega
    have hdvd : 10 ∣ x / 10 ^ (j + 1) * 10 ^ (j + 1) + 10 ^ (j + 1) :=
      Dvd.dvd.add (Dvd.dvd.mul_left hp _) hp
    have hround : roundNat (x / 10 ^ (j + 1) * 10 ^ (j + 1) + 10 ^ (j + 1)) ≠ x := by
      intro hx
      by_cases hle : x / 10 ^ (j + 1) * 10 ^ (j + 1) + 10 ^ (j + 1) ≤ 2 ^ 53
      · rw [roundNat_of_le _ hle] at hx
        omega
      · have h2 : 2 ^ 53 + 2 ≤ x / 10 ^ (j + 1) * 10 ^ (j + 1) + 10 ^ (j + 1) := by
          generalize x / 10 ^ (j + 1) * 10 ^ (j + 1) + 10 ^ (j + 1) = hi at hdvd hle
          omega
        have := roundNat_ge_of_ge _ h2
        omega
    rw [shortestDecimal]
    rw [if_neg hround, if_neg hround, roundNat_of_le _ (le_trans hlo h)]
    split_ifs with hx
    · exact hx
    · exact ih

theorem numberToStringNat_of_le (x : Nat) (h : x ≤ 2 ^ 53) : numberToStringNat x = Nat.repr x := by
  have hlt : x < 10 ^ 21 := lt_of_le_of_lt h (by norm_num)
  rw [numberToStringNat]
  rw [shortestDecimal_of_le x _ h, if_pos hlt]

/-- Up to `2 ^ 53` a non-negative number prints as the plain decimal digits of the integer. -/
theorem numberToString_of_nonneg_le (c : Int) (h0 : 0 ≤ c) (h : c ≤ 2 ^ 53) :
    numberToString c = Nat.repr c.natAbs := by
  rw [numberToString, if_neg (by omega), numberToStringNat_of_le _ (by omega)]

/-! ## Activations of a reachable root -/

/-- An activation renders all pending increments and the new one. -/
theorem activate_pending (c : Int) (j : Nat) :
    activate ⟨⟨some c, List.replicate j (SetStateAction.updater increment)⟩,
        view c dispatchSetState⟩ = some (atCount (increment^[j + 1] c)) := by
  rw [activate, fire_view, Option.map_some', rerender, dispatchSetState]
  show some (render ⟨some c, List.replicate j (SetStateAction.updater increment)
    ++ [SetStateAction.updater increment]⟩) = _
  rw [← List.replicate_succ', render_pending]

/-- The button text after `n` activations of the mounted component. -/
theorem buttonText_activations (n : Nat) :
    (activations n mount).bind Root.buttonText
      = some ("Count is " ++ numberToString (increment^[n] 0)) := by
  rw [mount_eq_atCount, activations_atCount, Option.some_bind, atCount_buttonText]

/-- Equal decimal printings of two integers between `0` and `2 ^ 53` come from equal
integers. -/
theorem numberToString_inj (a b : Int) (ha0 : 0 ≤ a) (ha : a ≤ 2 ^ 53) (hb0 : 0 ≤ b)
    (hb : b ≤ 2 ^ 53) (h : "Count is " ++ numberToString a = "Count is " ++ numberToString b) :
    a = b := by
  rw [numberToString_of_nonneg_le a ha0 ha, numberToString_of_nonneg_le b hb0 hb] at h
  have hd := congrArg String.data h
  rw [String.data_append, String.data_append] at hd
  have hv := congrArg decimalValue (List.append_cancel_left hd)
  rw [decimalValue_repr, decimalValue_repr] at hv
  omega

/-! ## The claims of the specification -/

/-- C1 (amended): for every `n` from `0` up to `2 ^ 53`, after the first render and exactly
`n` activations of the button, the button text is `"Count is "` followed by the decimal
digits of `n`. -/
theorem button_text_after_activations (n : Nat) (h : n ≤ 2 ^ 53) :
    (activations n mount).bind Root.buttonText = some ("Count is " ++ Nat.repr n) := by
  have hn : (0 : Int) + (n : Int) ≤ 2 ^ 53 := by
    have : (n : Int) ≤ ((2 ^ 53 : Nat) : Int) := Int.ofNat_le.mpr h
    simpa using this
  rw [mount_eq_atCount, activations_atCount, iterate_increment_of_le n 0 (le_refl _) hn,
    Option.some_bind, atCount_buttonText, numberToString_of_nonneg_le _ (by omega) hn]
  simp

/-- C1, the scenario of the specification: `"Count is 0"` on the first render,
`"Count is 3"` after three clicks, `"Count is 4"` after one more. -/
theorem button_text_after_activations_witness :
    (0 ≤ 2 ^ 53 ∧ (activations 0 mount).bind Root.buttonText = some ("Count is " ++ Nat.repr 0))
    ∧ (3 ≤ 2 ^ 53 ∧ (activations 3 mount).bind Root.buttonText = some ("Count is " ++ Nat.repr 3))
    ∧ (4 ≤ 2 ^ 53 ∧ (activations 4 mount).bind Root.buttonText = some ("Count is " ++ Nat.repr 4))
    ∧ "Count is " ++ Nat.repr 0 = "Count is 0"
    ∧ "Count is " ++ Nat.repr 3 = "Count is 3"
    ∧ "Count is " ++ Nat.repr 4 = "Count is 4" :=
  ⟨⟨by decide, button_text_after_activations 0 (by decide)⟩,
   ⟨by decide, button_text_after_activations 3 (by decide)⟩,
   ⟨by decide, button_text_after_activations 4 (by decide)⟩,
   by decide, by decide, by decide⟩

/-- C1 as stated fails: after `2 ^ 53 + 1 = 9007199254740993` activations the button reads
`"Count is 9007199254740992"`, not `"Count is 9007199254740993"`. -/
theorem button_text_stuck_at_maxExact :
    (activations (2 ^ 53 + 1) mount).bind Root.buttonText = some "Count is 9007199254740992"
    ∧ (activations (2 ^ 53 + 1) mount).bind Root.buttonText
        ≠ some ("Count is " ++ Nat.repr (2 ^ 53 + 1)) := by
  have h : (activations (2 ^ 53 + 1) mount).bind Root.buttonText
      = some "Count is 9007199254740992" := by
    rw [mount_eq_atCount, activations_atCount, Function.iterate_succ_apply',
      iterate_increment_of_le (2 ^ 53) 0 (le_refl _) (by norm_num), Option.some_bind,
      atCount_buttonText]
    have hi : increment (0 + ((2 ^ 53 : Nat) : Int)) = 2 ^ 53 := by decide
    rw [hi, numberToString_of_nonneg_le _ (by norm_num) (le_refl _)]
    decide
  refine ⟨h, ?_⟩
  rw [h]
  decide

/-- C2 (amended): for every counter value `c` with `0 ≤ c < 2 ^ 53`, the updater
`count => count + 1` returns exactly `c + 1`, and an activation of the button leaves the
Counter at `c + 1`. -/
theorem activation_adds_one (c : Int) (h0 : 0 ≤ c) (h : c < 2 ^ 53) :
    increment c = c + 1 ∧ (activate (atCount c)).bind Root.counter = some (c + 1) := by
  refine ⟨increment_of_lt c h0 h, ?_⟩
  rw [activate_atCount, Option.some_bind, atCount_counter, increment_of_lt c h0 h]

/-- C2 at the last value it holds for: from `2 ^ 53 - 1` an activation gives `2 ^ 53`. -/
theorem activation_adds_one_witness :
    (0 : Int) ≤ 9007199254740991 ∧ (9007199254740991 : Int) < 2 ^ 53
    ∧ increment 9007199254740991 = 9007199254740991 + 1
    ∧ (activate (atCount 9007199254740991)).bind Root.counter = some (9007199254740991 + 1) :=
  ⟨by decide, by decide, activation_adds_one 9007199254740991 (by decide) (by decide)⟩

/-- C2 as stated fails: the counter value `2 ^ 53 = 9007199254740992` is reached (by that
many activations), and there the updater returns its argument: an activation leaves the
Counter unchanged instead of adding one. -/
theorem activation_saturates_at_maxExact :
    Reachable (atCount 9007199254740992)
    ∧ increment 9007199254740992 = 9007199254740992
    ∧ increment 9007199254740992 ≠ 9007199254740992 + 1
    ∧ (activate (atCount 9007199254740992)).bind Root.counter = some 9007199254740992 := by
  refine ⟨?_, by decide, by decide, ?_⟩
  · have h := reachable_atCount (2 ^ 53)
    rw [iterate_increment_of_le (2 ^ 53) 0 (le_refl _) (by norm_num)] at h
    exact h
  · rw [activate_atCount, Option.some_bind, atCount_counter]
    exact congrArg some (by decide)

theorem render_shape (hook : Hook) :
    ∃ c : Int, render hook = atCount c := by
  obtain ⟨state, queue⟩ := hook
  cases state with
  | none => exact ⟨0, rfl⟩
  | some s =>
    exact ⟨queue.foldl (fun pending action => SetStateAction.apply action pending) s, rfl⟩

/-- C3: whatever the hook cell holds (so for every counter value, after any number of
activations), the rendered output has exactly three feature tiles, and their labels are, in
document order, "Care", "Community", "Security". -/
theorem tile_labels_static (hook : Hook) (c : Int) :
    (render hook).tiles.length = 3
    ∧ (render hook).tileLabels = ["Care", "Community", "Security"]
    ∧ (atCount c).tileLabels = ["Care", "Community", "Security"] := by
  obtain ⟨s, hs⟩ := render_shape hook
  rw [hs]
  exact ⟨rfl, rfl, rfl⟩

/-- C4: rendering is read-only on the state. A render leaves no update in the queue, and
rendering again any number of times without an activation gives the same root: the
Counter stays `c` and the output is the same tree. -/
theorem rerender_idle (hook : Hook) (c : Int) (k : Nat) :
    (render hook).hook.queue = []
    ∧ rerender^[k] (render hook) = render hook
    ∧ (rerender^[k] (atCount c)).counter = some c
    ∧ (rerender^[k] (atCount c)).output = (atCount c).output := by
  have fix : ∀ (s : Int) (j : Nat), rerender^[j] (atCount s) = atCount s := by
    intro s j
    induction j with
    | zero => rfl
    | succ j ih => rw [Function.iterate_succ_apply', ih, rerender_atCount]
  obtain ⟨s, hs⟩ := render_shape hook
  rw [hs, fix s k, fix c k]
  exact ⟨rfl, rfl, rfl, rfl⟩

/-- C5: the Counter is `0` after the first render, and in every root reached from it by
clicks and renders the Counter is defined and is a natural number (a non-negative
integer). -/
theorem counter_nat_of_reachable (r : Root) (h : Reachable r) :
    mount.counter = some 0 ∧ ∃ n : Nat, r.counter = some (n : Int) := by
  obtain ⟨c, j, h0, _, rfl⟩ := reachable_shape r h
  refine ⟨rfl, c.toNat, ?_⟩
  rw [Int.toNat_of_nonneg h0]
  rfl

/-- C5 on the root after a click and a render: its Counter is the natural number `1`. -/
theorem counter_nat_of_reachable_witness :
    Reachable (rerender ⟨⟨some 0, [SetStateAction.updater increment]⟩, view 0 dispatchSetState⟩)
    ∧ (mount.counter = some 0
      ∧ ∃ n : Nat,
        (rerender ⟨⟨some 0, [SetStateAction.updater increment]⟩, view 0 dispatchSetState⟩).counter
          = some (n : Int)) :=
  ⟨Reachable.rerender (Reachable.fire Reachable.mount rfl),
   counter_nat_of_reachable _ (Reachable.rerender (Reachable.fire Reachable.mount rfl))⟩

/-- C6 (amended): no step can fail. In every reachable root the click finds the button and
its handler, the activation yields a root, and that root is reachable again (so the
increment is enabled there too), has a Counter and shows a button text; a render of a
reachable root is reachable. From every reachable root whose Counter is below `2 ^ 53` the
activation leads to another root, with a greater Counter. -/
theorem activate_enabled (r : Root) (h : Reachable r) :
    (∃ r₁, fire r = some r₁ ∧ Reachable r₁)
    ∧ (∃ r₂, activate r = some r₂ ∧ Reachable r₂
        ∧ (∃ c, r₂.counter = some c) ∧ (∃ t, r₂.buttonText = some t)
        ∧ (∀ c, r.counter = some c → c < 2 ^ 53 →
            ∃ c₂, r₂.counter = some c₂ ∧ c < c₂ ∧ r₂ ≠ r))
    ∧ Reachable (rerender r) := by
  obtain ⟨c, j, h0, h1, hr⟩ := reachable_shape r h
  have hf : fire r = some ⟨dispatchSetState (SetStateAction.updater increment) r.hook,
      view c dispatchSetState⟩ := by
    rw [hr]; rfl
  have ha : activate r = some (atCount (increment^[j + 1] c)) := by
    rw [hr]; exact activate_pending c j
  have h₁ := Reachable.fire h hf
  have h₂ : Reachable (atCount (increment^[j + 1] c)) := by
    have hm := Reachable.rerender h₁
    have he : activate r = some (rerender ⟨dispatchSetState (SetStateAction.updater increment)
        r.hook, view c dispatchSetState⟩) := by
      rw [activate, hf, Option.map_some']
    rw [← Option.some.inj (he.symm.trans ha)]
    exact hm
  refine ⟨⟨_, hf, h₁⟩, ⟨_, ha, h₂, ⟨_, atCount_counter _⟩, ⟨_, atCount_buttonText _⟩, ?_⟩,
    Reachable.rerender h⟩
  intro c' hc' hlt
  have hcc : c' = c := by
    rw [hr] at hc'
    exact (Option.some.inj hc').symm
  subst hcc
  have hgt : c' < increment^[j + 1] c' := by
    rw [iterate_increment_eq_min (j + 1) c' h0 h1]
    push_cast
    exact lt_min (by omega) hlt
  refine ⟨_, atCount_counter _, hgt, ?_⟩
  intro heq
  have hcount := congrArg Root.counter heq
  rw [atCount_counter, hr] at hcount
  have := Option.some.inj hcount
  omega

/-- C6 on the first render: the mounted root has its Counter and button text, the first
activation is enabled and leads from Counter `0` to the root with Counter `1`. -/
theorem activate_enabled_witness :
    Reachable mount
    ∧ mount.counter = some 0 ∧ mount.buttonText = some "Count is 0"
    ∧ activate mount = some (atCount 1)
    ∧ ((∃ r₁, fire mount = some r₁ ∧ Reachable r₁)
      ∧ (∃ r₂, activate mount = some r₂ ∧ Reachable r₂
          ∧ (∃ c, r₂.counter = some c) ∧ (∃ t, r₂.buttonText = some t)
          ∧ (∀ c, mount.counter = some c → c < 2 ^ 53 →
              ∃ c₂, r₂.counter = some c₂ ∧ c < c₂ ∧ r₂ ≠ mount))
      ∧ Reachable (rerender mount)) :=
  ⟨Reachable.mount, rfl, by decide, congrArg (fun c => some (atCount c)) (by decide),
    activate_enabled mount Reachable.mount⟩

/-- C6 as stated fails: the root with Counter `2 ^ 53 = 9007199254740992` is reachable and
terminal, an activation there returns the very same root. -/
theorem activate_absorbing_at_maxExact :
    Reachable (atCount 9007199254740992)
    ∧ activate (atCount 9007199254740992) = some (atCount 9007199254740992) := by
  constructor
  · have h := reachable_atCount (2 ^ 53)
    rw [iterate_increment_of_le (2 ^ 53) 0 (le_refl _) (by norm_num)] at h
    exact h
  · rw [activate_atCount]
    exact congrArg (fun c => some (atCount c)) (by decide)

/-- The fields of the configuration object as the file writes them: the base `./`, which
starts with a dot and not with a slash, and the React plugin alone. -/
theorem viteConfig_fields :
    viteConfig.base = "./"
    ∧ viteConfig.base.data.head? = some '.'
    ∧ viteConfig.plugins = [Plugin.react] :=
  ⟨rfl, rfl, rfl⟩

theorem iterate_onClickCapturing (k : Nat) (c : Int) (queue : List SetStateAction) :
    (onClickCapturing c dispatchSetState)^[k] ⟨some c, queue⟩
      = ⟨some c, queue ++ List.replicate k (SetStateAction.value (jsAdd c 1))⟩ := by
  induction k generalizing queue with
  | zero => simp
  | succ k ih =>
    rw [Function.iterate_succ_apply]
    show (onClickCapturing c dispatchSetState)^[k]
      ⟨some c, queue ++ [SetStateAction.value (jsAdd c 1)]⟩ = _
    rw [ih, List.append_assoc, List.replicate_succ]
    rfl

theorem foldl_replicate_value (k : Nat) (v s : Int) :
    (List.replicate (k + 1) (SetStateAction.value v)).foldl
      (fun pending action => action.apply pending) s = v := by
  induction k generalizing s with
  | zero => rfl
  | succ k ih => rw [List.replicate_succ, List.foldl_cons, ih]

/-- With the capturing handler every click of a batch enqueues the same value: after a
batch of one or more clicks the state is `count + 1`, the other clicks are lost. -/
theorem batchCapturing_succ (k : Nat) (c : Int) : batchCapturing (k + 1) c = jsAdd c 1 := by
  rw [batchCapturing, iterate_onClickCapturing, List.nil_append]
  exact foldl_replicate_value k (jsAdd c 1) c

/-- Batched clicks and clicks each followed by a render give the same root, for every
starting value and every number of clicks. -/
theorem batch_eq_activations (k : Nat) (c : Int) :
    batch k (atCount c) = activations k (atCount c) := by
  rw [batch_atCount, activations_atCount]

/-- C8 (amended): starting from Counter `c ≥ 0`, as long as `c + k ≤ 2 ^ 53`, `k` clicks
handled in one batch before the next render leave the Counter at `c + k`, the same root as
`k` activations each followed by a render; a handler that enqueued the value `count + 1`
computed from the captured count would give `c + 1` for every `k ≥ 1`. -/
theorem batch_counts_every_click (c : Int) (k : Nat) (h0 : 0 ≤ c) (h : c + k ≤ 2 ^ 53) :
    (batch k (atCount c)).bind Root.counter = some (c + k)
    ∧ batch k (atCount c) = activations k (atCount c)
    ∧ (1 ≤ k → batchCapturing k c = c + 1) := by
  refine ⟨?_, batch_eq_activations k c, ?_⟩
  · rw [batch_atCount, Option.some_bind, atCount_counter, iterate_increment_of_le k c h0 h]
  · intro hk
    obtain ⟨k', rfl⟩ := Nat.exists_eq_add_of_le' hk
    rw [batchCapturing_succ]
    have hc : c < 2 ^ 53 := by push_cast at h; omega
    exact increment_of_lt c h0 hc

/-- C8 on three clicks from `5`: the batch gives `8`, the capturing handler would give `6`. -/
theorem batch_counts_every_click_witness :
    (0 : Int) ≤ 5 ∧ (5 : Int) + (3 : Nat) ≤ 2 ^ 53
    ∧ ((batch 3 (atCount 5)).bind Root.counter = some (5 + (3 : Nat))
      ∧ batch 3 (atCount 5) = activations 3 (atCount 5)
      ∧ (1 ≤ 3 → batchCapturing 3 5 = 5 + 1)) :=
  ⟨by decide, by decide, batch_counts_every_click 5 3 (by decide) (by decide)⟩

/-- C8 as stated fails: starting from Counter `2 ^ 53 = 9007199254740992`, a batch of one
click leaves the Counter at `9007199254740992`, not at `9007199254740993`. -/
theorem batch_stuck_at_maxExact :
    (batch 1 (atCount 9007199254740992)).bind Root.counter = some 9007199254740992
    ∧ (batch 1 (atCount 9007199254740992)).bind Root.counter
        ≠ some (9007199254740992 + (1 : Nat)) := by
  have h : (batch 1 (atCount 9007199254740992)).bind Root.counter = some 9007199254740992 := by
    rw [batch_atCount, Option.some_bind, atCount_counter]
    exact congrArg some (by decide)
  refine ⟨h, ?_⟩
  rw [h]
  decide

/-- C9 (amended): up to `2 ^ 53` the button label determines the Counter. For all counter
values `a, b` between `0` and `2 ^ 53`, if the button rendered for `a` and the button
rendered for `b` show the same text, then `a = b`; and for all click counts `m, n` up to
`2 ^ 53`, if the button shows the same text after `m` and after `n` activations, then
`m = n`. -/
theorem buttonText_injective (a b : Int) (m n : Nat) (ha0 : 0 ≤ a) (ha : a ≤ 2 ^ 53)
    (hb0 : 0 ≤ b) (hb : b ≤ 2 ^ 53) (hm : m ≤ 2 ^ 53) (hn : n ≤ 2 ^ 53) :
    ((atCount a).buttonText = (atCount b).buttonText → a = b)
    ∧ ((activations m mount).bind Root.buttonText
        = (activations n mount).bind Root.buttonText → m = n) := by
  have cast : ∀ k : Nat, k ≤ 2 ^ 53 → (0 : Int) + (k : Int) ≤ 2 ^ 53 := by
    intro k hk
    have : (k : Int) ≤ ((2 ^ 53 : Nat) : Int) := Int.ofNat_le.mpr hk
    simpa using this
  constructor
  · intro h
    rw [atCount_buttonText, atCount_buttonText] at h
    exact numberToString_inj a b ha0 ha hb0 hb (Option.some.inj h)
  · intro h
    rw [buttonText_activations, buttonText_activations,
      iterate_increment_of_le m 0 (le_refl _) (cast m hm),
      iterate_increment_of_le n 0 (le_refl _) (cast n hn)] at h
    have := numberToString_inj _ _ (by omega) (cast m hm) (by omega) (cast n hn)
      (Option.some.inj h)
    omega

/-- C9 on the values `3` and `4`: the two buttons, and the buttons after three and after
four clicks, do not show the same text. -/
theorem buttonText_injective_witness :
    ((0 : Int) ≤ 3 ∧ (3 : Int) ≤ 2 ^ 53 ∧ (0 : Int) ≤ 4 ∧ (4 : Int) ≤ 2 ^ 53
      ∧ 3 ≤ 2 ^ 53 ∧ 4 ≤ 2 ^ 53)
    ∧ (((atCount 3).buttonText = (atCount 4).buttonText → (3 : Int) = 4)
      ∧ ((activations 3 mount).bind Root.buttonText
          = (activations 4 mount).bind Root.buttonText → 3 = 4))
    ∧ (atCount 3).buttonText ≠ (atCount 4).buttonText
    ∧ (activations 3 mount).bind Root.buttonText ≠ (activations 4 mount).bind Root.buttonText :=
  ⟨⟨by decide, by decide, by decide, by decide, by decide, by decide⟩,
   buttonText_injective 3 4 3 4 (by decide) (by decide) (by decide) (by decide) (by decide)
     (by decide),
   fun h => absurd ((buttonText_injective 3 4 3 4 (by decide) (by decide) (by decide)
     (by decide) (by decide) (by decide)).1 h) (by decide),
   fun h => absurd ((buttonText_injective 3 4 3 4 (by decide) (by decide) (by decide)
     (by decide) (by decide) (by decide)).2 h) (by decide)⟩

/-- C9 as stated fails: two different click counts are displayed identically. After
`2 ^ 53 = 9007199254740992` activations and after `2 ^ 53 + 1` activations the button
shows the same text, `"Count is 9007199254740992"`. -/
theorem click_counts_same_label_at_maxExact :
    (activations (2 ^ 53) mount).bind Root.buttonText
      = (activations (2 ^ 53 + 1) mount).bind Root.buttonText
    ∧ (activations (2 ^ 53) mount).bind Root.buttonText = some "Count is 9007199254740992"
    ∧ 2 ^ 53 ≠ 2 ^ 53 + 1 := by
  have h0 : increment^[2 ^ 53] 0 = 9007199254740992 := by
    rw [iterate_increment_of_le (2 ^ 53) 0 (le_refl _) (by norm_num)]
    norm_num
  have h1 : increment^[2 ^ 53 + 1] 0 = 9007199254740992 := by
    rw [Function.iterate_succ_apply', h0]
    decide
  refine ⟨?_, ?_, by decide⟩
  · rw [buttonText_activations, buttonText_activations, h0, h1]
  · rw [buttonText_activations, h0, numberToString_of_nonneg_le _ (by norm_num) (by norm_num)]
    decide

/-- C10: an activation changes nothing but the number on the button. The output of any
render is the tree of its Counter; the trees of two counter values `a` and `b` have the
same title, description, tiles, class names, animation props and button attributes, and
turn into each other when the number child is replaced; the only number child in the tree
is the one after the text `"Count is "` in the button. -/
theorem output_frame (hook : Hook) (a b : Int) :
    (∃ c, (render hook).counter = some c ∧ (render hook).output = (atCount c).output)
    ∧ (atCount a).output.mapNumbers (fun _ => b) = (atCount b).output
    ∧ (atCount a).output.descendants.filter VNode.isNumber = [VNode.number a]
    ∧ (atCount a).button.map VNode.children = some [VNode.text "Count is ", VNode.number a]
    ∧ (activate (atCount a)).map Root.output
        = some ((atCount a).output.mapNumbers (fun _ => increment a))
    ∧ ((atCount a).output.elementsByType "motion.h1").map VNode.textContent
        = ["Digital Allies V2"]
    ∧ ((atCount a).output.elementsByType "p").map VNode.textContent
        = ["React + Vite + Tailwind CSS + Framer Motion + Lucide React"] := by
  refine ⟨?_, rfl, rfl, rfl, rfl, rfl, rfl⟩
  obtain ⟨c, hc⟩ := render_shape hook
  exact ⟨c, by rw [hc]; rfl, by rw [hc]⟩

end DigitalAllies
